import Mathlib

/-!
Shallow embedding of the `hkdrama-rss-m3u` program (`main.py`) and
verification of its specification claims.

Strings are modelled as `List Char`.  Network access (`requests` /
`feedparser` fetching) is modelled by oracle functions passed as arguments:
a fetcher `Str → Except Str Str` (exception message on failure) and a parser
`Str → List Entry` (feedparser never raises).  Side effects (prints and
sleeps) are returned as explicit event traces.
-/

set_option autoImplicit false

namespace HkDrama

/-- Program strings, modelled as lists of characters. -/
abbrev Str := List Char

/-- Python `str.lower()` / `re.I` case folding, restricted to ASCII letters
(the only characters relevant to the patterns of this program). -/
def lowerList (s : Str) : Str := s.map Char.toLower

/-- Helper for `re.search`: does the pattern match starting at some position
(including the end-of-string position)? -/
def searchAny (p : Str → Bool) : Str → Bool
  | [] => p []
  | c :: t => p (c :: t) || searchAny p t

/-- Python regex `$` (no MULTILINE): matches at end of string, or just before
a single trailing newline. -/
def dollarOk : Str → Bool
  | [] => true
  | [c] => c == '\n'
  | _ => false

/-- Satisfiability of `.*$` on the remainder: some prefix of non-newline
characters can be consumed so that `$` matches afterwards. -/
def qtailOk : Str → Bool
  | [] => true
  | c :: t => dollarOk (c :: t) || (!(c == '\n') && qtailOk t)

/-- Satisfiability of `(\?.*)?$` on the remainder. -/
def extTailOk : Str → Bool
  | '?' :: t => qtailOk t
  | l => dollarOk l

/-- Extension alternatives of `MEDIA_EXT = \.(m3u8|mp4|mov|mpd|ts)(\?.*)?$`. -/
def mediaExts : List Str :=
  ["m3u8".toList, "mp4".toList, "mov".toList, "mpd".toList, "ts".toList]

/-- Does `MEDIA_EXT` match at the start of `s` (case-insensitive)? -/
def matchExtAt (s : Str) : Bool :=
  mediaExts.any fun ext =>
    let pat := '.' :: ext
    lowerList (s.take pat.length) == pat && extTailOk (s.drop pat.length)

/-- `MEDIA_EXT.search(s)` as a Boolean (`main.py` line 19). -/
def searchMediaExt (s : Str) : Bool := searchAny matchExtAt s

/-- Does `EPISODE_URL = [?&]episodes=\d+` (re.I) match at the start of `s`?
`\d` is modelled over ASCII digits. -/
def matchEpisodeAt : Str → Bool
  | c :: t =>
    (c == '?' || c == '&') && lowerList (t.take 9) == "episodes=".toList &&
      (match t.drop 9 with
       | d :: _ => d.isDigit
       | [] => false)
  | [] => false

/-- `EPISODE_URL.search(s)` as a Boolean (`main.py` line 20). -/
def episodeUrlSearch (s : Str) : Bool := searchAny matchEpisodeAt s

/-- Python `s.startswith(pat)`: the leading slice of `s` equals `pat`. -/
def startsWithB (pat s : Str) : Bool := s.take pat.length == pat

/-- Python `s.endswith(pat)`: the trailing slice of `s` equals `pat`. -/
def endsWithB (pat s : Str) : Bool := s.drop (s.length - pat.length) == pat

/-- Python `pat in s`: `pat` occurs as a contiguous substring of `s`. -/
def containsSub (pat : Str) : Str → Bool
  | [] => pat.isEmpty
  | c :: t => startsWithB pat (c :: t) || containsSub pat t

/-- The HLS test of `choose_best_media` (`main.py` line 33):
`u.lower().endswith(".m3u8") or ".m3u8" in u.lower()`. -/
def hlsLike (u : Str) : Bool :=
  endsWithB (".m3u8".toList) (lowerList u) ||
    containsSub (".m3u8".toList) (lowerList u)

/-- `choose_best_media` (`main.py` lines 31-34): prefer HLS if present, else
the first URL, else none. -/
def choose_best_media (urls : List Str) : Option Str :=
  let hls := urls.filter hlsLike
  match hls with
  | h :: _ => some h
  | [] =>
    match urls with
    | u :: _ => some u
    | [] => none

/-- A feedparser link or enclosure dictionary: optional `href`, optional
`rel` tag. -/
structure LinkD where
  href : Option Str
  rel : Option Str
deriving DecidableEq

/-- A feedparser entry as used by the program: optional `title`, optional
`enclosures` list (key may be absent), optional `links` list, optional
`link`. -/
structure Entry where
  title : Option Str
  enclosures : Option (List LinkD)
  links : Option (List LinkD)
  link : Option Str
deriving DecidableEq

/-- Order-preserving de-duplication with a `seen` set (`main.py` lines
52-57). -/
def dedupeAux (seen : List Str) : List Str → List Str
  | [] => []
  | u :: rest => if u ∈ seen then dedupeAux seen rest else u :: dedupeAux (u :: seen) rest

/-- First-occurrence de-duplication, as in `main.py` lines 52-57 and
`list(dict.fromkeys(...))` on line 110. -/
def dedupe (l : List Str) : List Str := dedupeAux [] l

/-- `extract_enclosure_urls` (`main.py` lines 36-58).  Python truthiness of
strings (`if href:`) is modelled as non-emptiness. -/
def extract_enclosure_urls (e : Entry) : List Str :=
  let out1 : List Str :=
    match e.enclosures with
    | some encs =>
      if encs.isEmpty then []
      else
        encs.filterMap fun enc =>
          match enc.href with
          | some h => if h.isEmpty then none else some h
          | none => none
    | none => []
  let out2 : List Str :=
    if out1.isEmpty then
      match e.links with
      | some ls =>
        ls.filterMap fun l =>
          match l.href with
          | some h =>
            if h.isEmpty then none
            else if l.rel = some ("enclosure".toList) ∨ searchMediaExt h = true then some h
            else none
          | none => none
      | none => []
    else []
  let out3 : List Str :=
    if (out1 ++ out2).isEmpty then
      match e.link with
      | some h => if h.isEmpty then [] else [h]
      | none => []
    else out1 ++ out2
  dedupe out3

/-- Characters stripped from the front of a URL by `urllib.parse.urlsplit`
(WHATWG C0 control or space). -/
def ctlOrSpace (c : Char) : Bool := decide (c.toNat ≤ 32)

/-- Characters removed everywhere in a URL by `urllib.parse.urlsplit`
(tab, CR, LF). -/
def tabCrLf (c : Char) : Bool := c == '\t' || c == '\r' || c == '\n'

/-- The URL normalisation performed by `urllib.parse.urlsplit` before
splitting: lstrip C0-control-or-space, then remove tab/CR/LF everywhere. -/
def nrmUrl (u : Str) : Str :=
  (u.dropWhile ctlOrSpace).filter fun c => !(tabCrLf c)

/-- First occurrence split: everything after the first `c`, if any. -/
def afterChar (c : Char) : Str → Option Str
  | [] => none
  | x :: t => if x = c then some t else afterChar c t

/-- The `query` component produced by `urllib.parse.urlparse`: everything
after the first `?` of the part before the first `#` (after `urlsplit`
normalisation).  Scheme/netloc splitting cannot consume `?` or `#`, so it is
irrelevant to the query. -/
def pyQuery (u : Str) : Str :=
  match afterChar '?' ((nrmUrl u).takeWhile fun c => decide (c ≠ '#')) with
  | some q => q
  | none => []

/-- Hexadecimal digit value, as accepted by `urllib.parse.unquote`. -/
def hexVal (c : Char) : Option Nat :=
  if '0' ≤ c ∧ c ≤ '9' then some (c.toNat - 48)
  else if 'a' ≤ c ∧ c ≤ 'f' then some (c.toNat - 87)
  else if 'A' ≤ c ∧ c ≤ 'F' then some (c.toNat - 55)
  else none

/-- `urllib.parse.unquote_plus`: `+` becomes space, `%hh` becomes the byte
`hh`; malformed escapes are kept literally.  Byte-accurate for ASCII escape
sequences (multi-byte UTF-8 recombination is not modelled; it cannot produce
the ASCII key names this program compares against). -/
def unquotePlus : Str → Str
  | [] => []
  | '+' :: t => ' ' :: unquotePlus t
  | '%' :: a :: b :: t =>
    (match hexVal a, hexVal b with
     | some x, some y => Char.ofNat (16 * x + y) :: unquotePlus t
     | _, _ => '%' :: unquotePlus (a :: b :: t))
  | c :: t => c :: unquotePlus t

/-- Split a query string on `&`, as `parse_qsl` does (separator `&`). -/
def splitAmp : Str → List Str
  | [] => [[]]
  | c :: t =>
    if c = '&' then [] :: splitAmp t
    else
      match splitAmp t with
      | [] => [[c]]
      | h :: r => (c :: h) :: r

/-- Split a field at its first `=`: `name.split('=', 1)` when an `=` is
present. -/
def splitFirstEq : Str → Option (Str × Str)
  | [] => none
  | c :: t =>
    if c = '=' then some ([], t)
    else
      match splitFirstEq t with
      | some (n, v) => some (c :: n, v)
      | none => none

/-- Does one `&`-field of a query string contribute the given key, per
`parse_qsl` defaults: empty fields skipped, fields without `=` skipped,
fields with empty value skipped, names unquoted. -/
def fieldHasKey (key : Str) (f : Str) : Bool :=
  if f.isEmpty then false
  else
    match splitFirstEq f with
    | none => false
    | some (n, v) => !v.isEmpty && decide (unquotePlus n = key)

/-- `"xml" in parse_qs(q)` for a raw query string `q`. -/
def hasXmlParam (q : Str) : Bool := (splitAmp q).any (fieldHasKey ("xml".toList))

/-- `ensure_xml_view` (`main.py` lines 60-67). -/
def ensure_xml_view (url : Str) : Str :=
  let q := pyQuery url
  if hasXmlParam q = false then
    url ++ ((if q.isEmpty then '?' else '&') :: "xml=1".toList)
  else url

/-- The inner secondary-feed URL preparation (`main.py` line 98):
`u if "xml=" in u else (u + ("&xml=1" if "?" in u else "?xml=1"))`. -/
def innerPrep (u : Str) : Str :=
  if containsSub ("xml=".toList) u then u
  else u ++ (if '?' ∈ u then "&xml=1".toList else "?xml=1".toList)

/-- Python `\s` character class, over the ASCII range. -/
def pySpace (c : Char) : Bool :=
  c == ' ' || c == '\t' || c == '\n' || c == '\r' || c == '\x0b' || c == '\x0c'

/-- Body character class `[^\"'<>\s]` of `INNER_XML_HINT`. -/
def innerBodyChar (c : Char) : Bool :=
  !(c == '"' || c == '\'' || c == '<' || c == '>' || pySpace c)

/-- Case-insensitive literal match at the start of `s` (pattern given in
lowercase). -/
def ciStarts (pat : Str) (s : Str) : Bool := lowerList (s.take pat.length) == pat

/-- Match length of one alternative of `INNER_XML_HINT` at the start of `s`:
the literal scheme/host part followed by a maximal non-empty greedy body. -/
def innerAtWith (pat : Str) (s : Str) : Option Nat :=
  if ciStarts pat s then
    let body := (s.drop pat.length).takeWhile innerBodyChar
    if body.isEmpty then none else some (pat.length + body.length)
  else none

/-- Match length of `INNER_XML_HINT = https?://v\.allrss\.se/v/[^\"'<>\s]+`
(re.I) at the start of `s`; the greedy `s?` branch is tried first (the two
branches are mutually exclusive after `http`). -/
def matchInnerAt (s : Str) : Option Nat :=
  match innerAtWith ("https://v.allrss.se/v/".toList) s with
  | some n => some n
  | none => innerAtWith ("http://v.allrss.se/v/".toList) s

/-- `INNER_XML_HINT.findall(s)` (`main.py` line 96): non-overlapping
leftmost matches, scanning resumes after each match. -/
def findInner : Str → List Str
  | [] => []
  | c :: t =>
    match matchInnerAt (c :: t) with
    | some n => (c :: t).take n :: findInner (t.drop (n - 1))
    | none => findInner t
termination_by s => s.length
decreasing_by
  all_goals simp only [List.length_cons]
  · exact Nat.lt_succ_of_le (le_trans (le_of_eq (List.length_drop _ _)) (Nat.sub_le _ _))
  · exact Nat.lt_succ_self _

/-- Warning line printed by the inner loop of `resolve_episode_to_media`
(`main.py` line 107). -/
def warnInner (u ex : Str) : Str :=
  "[WARN] inner xml fetch failed ".toList ++ u ++ ": ".toList ++ ex

/-- Result of the inner secondary-feed loop: accumulated media, fetched
URLs, and warning lines. -/
structure InnerOut where
  media : List Str
  fetched : List Str
  logs : List Str

/-- The inner loop of `resolve_episode_to_media` (`main.py` lines 99-107):
fetch each inner URL, parse it, extract enclosures; failures are logged and
skipped. -/
def innerLoop (fetch : Str → Except Str Str) (parse : Str → List Entry) :
    List Str → InnerOut
  | [] => ⟨[], [], []⟩
  | u :: rest =>
    let r := innerLoop fetch parse rest
    match fetch u with
    | .ok txt =>
      ⟨((parse txt).flatMap extract_enclosure_urls) ++ r.media, u :: r.fetched, r.logs⟩
    | .error ex => ⟨r.media, u :: r.fetched, warnInner u ex :: r.logs⟩

/-- The playable filter of `main.py` line 112. -/
def playableFilter (m : Str) : Bool :=
  searchMediaExt m || containsSub (".m3u8".toList) (lowerList m)

/-- Final de-duplicate-and-filter step of `resolve_episode_to_media`
(`main.py` lines 110-113): dedupe, keep playable-looking URLs, fall back to
the full deduplicated list. -/
def finalize (media : List Str) : List Str :=
  let d := dedupe media
  let p := d.filter playableFilter
  if p.isEmpty then d else p

/-- Result of `resolve_episode_to_media`: the returned value or propagated
exception, the URLs passed to `fetch_text` (in order), and the warning lines
printed. -/
structure ResolveOut where
  result : Except Str (List Str)
  fetched : List Str
  logs : List Str

/-- `resolve_episode_to_media` (`main.py` lines 69-113), with the network
modelled by the `fetch` and `parse` oracles. -/
def resolve_episode_to_media (fetch : Str → Except Str Str)
    (parse : Str → List Entry) (url : Str) : ResolveOut :=
  if searchMediaExt url then ⟨.ok [url], [], []⟩
  else
    let xml_url := ensure_xml_view url
    match fetch xml_url with
    | .error ex => ⟨.error ex, [xml_url], []⟩
    | .ok xml_text =>
      let media := (parse xml_text).flatMap extract_enclosure_urls
      if media.isEmpty then
        let inner := (findInner xml_text).map innerPrep
        let r := innerLoop fetch parse inner
        ⟨.ok (finalize r.media), xml_url :: r.fetched, r.logs⟩
      else ⟨.ok (finalize media), [xml_url], []⟩

/-- A playlist item `(group, title, url)`. -/
abbrev Item := Str × Str × Str

/-- Observable side effects of `collect_group`: printed lines and sleeps. -/
inductive Event where
  | log : Str → Event
  | sleep : ℚ → Event
deriving DecidableEq

/-- Is an event a sleep? -/
def isSleep : Event → Bool
  | .sleep _ => true
  | .log _ => false

/-- Warning line printed by `collect_group` (`main.py` line 134). -/
def warnEpisode (u ex : Str) : Str :=
  "[WARN] failed to resolve episode ".toList ++ u ++ ": ".toList ++ ex

/-- Processing of one candidate URL inside `collect_group` (`main.py` lines
123-146), returning the contributed items and events.  The `try/except`
blocks become matches on the resolver's `Except` result; the non-episode
failure branch (lines 145-146) is a silent `pass`. -/
def processCandidate (fetch : Str → Except Str Str) (parse : Str → List Entry)
    (g t u : Str) : List Item × List Event :=
  if episodeUrlSearch u then
    let r := resolve_episode_to_media fetch parse u
    match r.result with
    | .ok medias =>
      (if medias.isEmpty then []
       else
         match choose_best_media medias with
         | some best => [(g, t, best)]
         | none => [],
       r.logs.map Event.log)
    | .error ex => ([], r.logs.map Event.log ++ [Event.log (warnEpisode u ex)])
  else
    if searchMediaExt u then ([(g, t, u)], [])
    else
      let r := resolve_episode_to_media fetch parse u
      match r.result with
      | .ok medias =>
        (match choose_best_media medias with
         | some best => [(g, t, best)]
         | none => [],
         r.logs.map Event.log)
      | .error _ => ([], r.logs.map Event.log)

/-- Processing of a list of candidate URLs, concatenating contributions. -/
def processCandidates (fetch : Str → Except Str Str) (parse : Str → List Entry)
    (g t : Str) : List Str → List Item × List Event
  | [] => ([], [])
  | u :: us =>
    let a := processCandidate fetch parse g t u
    let b := processCandidates fetch parse g t us
    (a.1 ++ b.1, a.2 ++ b.2)

/-- Processing of one feed entry inside `collect_group` (`main.py` lines
118-147): entries with no candidates are skipped entirely; otherwise all
candidates are processed and one polite sleep is performed. -/
def processEntry (fetch : Str → Except Str Str) (parse : Str → List Entry)
    (g : Str) (ps : ℚ) (e : Entry) : List Item × List Event :=
  let t := e.title.getD ("Untitled".toList)
  let urls := extract_enclosure_urls e
  if urls.isEmpty then ([], [])
  else
    let r := processCandidates fetch parse g t urls
    (r.1, r.2 ++ [Event.sleep ps])

/-- The entry loop of `collect_group`. -/
def collectEntries (fetch : Str → Except Str Str) (parse : Str → List Entry)
    (g : Str) (ps : ℚ) : List Entry → List Item × List Event
  | [] => ([], [])
  | e :: es =>
    let a := processEntry fetch parse g ps e
    let b := collectEntries fetch parse g ps es
    (a.1 ++ b.1, a.2 ++ b.2)

/-- `collect_group` (`main.py` lines 115-148); `parseFeedUrl` models
`feedparser.parse` applied to the feed URL (feedparser fetches and never
raises). -/
def collect_group (parseFeedUrl : Str → List Entry)
    (fetch : Str → Except Str Str) (parse : Str → List Entry)
    (g feedUrl : Str) (ps : ℚ) : List Item × List Event :=
  collectEntries fetch parse g ps (parseFeedUrl feedUrl)

/-- The `#EXTINF` info line written by `write_m3u` (`main.py` line 161). -/
def infoLine (g t : Str) : Str :=
  "#EXTINF:-1 group-title=\"".toList ++ g ++ "\",".toList ++ t

/-- The item loop of `write_m3u` (`main.py` lines 157-161), producing the
written lines; items whose URL is in `seen` are skipped. -/
def writeGo (seen : List Str) : List Item → List Str
  | [] => []
  | (g, t, u) :: rest =>
    if u ∈ seen then writeGo seen rest
    else infoLine g t :: u :: writeGo (u :: seen) rest

/-- `write_m3u` (`main.py` lines 151-162), modelled as the lines of the
written file (directory creation and the returned path are not modelled). -/
def write_m3u (items : List Item) : List Str :=
  "#EXTM3U".toList :: writeGo [] items

/-- Spec-side de-duplication (spec section 4.3/4.4): keep the first
occurrence of each element, preserving order. -/
def keepFirstOccurrences {α : Type} [DecidableEq α] : List α → List α
  | [] => []
  | u :: rest => u :: keepFirstOccurrences (rest.filter fun v => decide (v ≠ u))
termination_by l => l.length
decreasing_by
  simp only [List.length_cons]
  exact Nat.lt_succ_of_le (List.length_filter_le _ _)

/-- Spec-side final step of the Episode Resolver (spec section 4.4 steps
5-6): de-duplicate preserving order, filter to URLs matching the media
pattern or containing `.m3u8` case-insensitively, return the filtered list
if non-empty, else the full de-duplicated list. -/
def finalizeSpec (l : List Str) : List Str :=
  let d := keepFirstOccurrences l
  let p := d.filter fun u => searchMediaExt u || containsSub (".m3u8".toList) (lowerList u)
  if p.isEmpty then d else p

/-- Spec-side tier 1 of the Enclosure Extractor (spec section 4.3): all
declared enclosure hrefs in document order (an absent or empty href is not
an href). -/
def specTier1 (e : Entry) : List Str :=
  (e.enclosures.getD []).filterMap fun enc =>
    match enc.href with
    | some h => if h.isEmpty then none else some h
    | none => none

/-- Spec-side tier 2 of the Enclosure Extractor (spec section 4.3): generic
link hrefs whose relation tag equals "enclosure" or whose href matches the
media pattern. -/
def specTier2 (e : Entry) : List Str :=
  (e.links.getD []).filterMap fun l =>
    match l.href with
    | some h =>
      if h.isEmpty then none
      else if l.rel = some ("enclosure".toList) ∨ searchMediaExt h = true then some h
      else none
    | none => none

/-- Spec-side tier 3 of the Enclosure Extractor (spec section 4.3): the
entry's canonical page link, if present. -/
def specTier3 (e : Entry) : List Str :=
  match e.link with
  | some h => if h.isEmpty then [] else [h]
  | none => []

/-- Spec-side Enclosure Extractor (spec section 4.3): strict three-tier
fallback stopping at the first tier yielding results, then first-occurrence
de-duplication. -/
def specExtract (e : Entry) : List Str :=
  keepFirstOccurrences
    (if specTier1 e ≠ [] then specTier1 e
     else if specTier2 e ≠ [] then specTier2 e
     else specTier3 e)

/-- The candidate list accumulated by `resolve_episode_to_media` before its
final dedupe/filter step (spec section 4.4 steps 3-4), given the fetched
text of the XML view. -/
def accMedia (fetch : Str → Except Str Str) (parse : Str → List Entry)
    (xml_text : Str) : List Str :=
  let media := (parse xml_text).flatMap extract_enclosure_urls
  if media.isEmpty then (innerLoop fetch parse ((findInner xml_text).map innerPrep)).media
  else media

/-- Spec-side first-occurrence de-duplication of playlist items keyed on the
URL component (spec section 4.7): an item is kept when no earlier item has
the same URL. -/
def dedupItemsByUrl : List Item → List Item
  | [] => []
  | it :: rest => it :: dedupItemsByUrl (rest.filter fun jt => decide (jt.2.2 ≠ it.2.2))
termination_by l => l.length
decreasing_by
  simp only [List.length_cons]
  exact Nat.lt_succ_of_le (List.length_filter_le _ _)

/-! Lemmas about first-occurrence de-duplication -/

theorem keepFirstOccurrences_nil {α : Type} [DecidableEq α] :
    keepFirstOccurrences ([] : List α) = [] := by
  simp [keepFirstOccurrences]

theorem keepFirstOccurrences_cons {α : Type} [DecidableEq α] (u : α) (rest : List α) :
    keepFirstOccurrences (u :: rest) =
      u :: keepFirstOccurrences (rest.filter fun v => decide (v ≠ u)) := by
  rw [keepFirstOccurrences]

theorem keepFirstOccurrences_sublist {α : Type} [DecidableEq α] :
    ∀ l : List α, (keepFirstOccurrences l).Sublist l
  | [] => by simp [keepFirstOccurrences_nil]
  | u :: rest => by
    rw [keepFirstOccurrences_cons]
    exact List.Sublist.cons₂ u
      ((keepFirstOccurrences_sublist _).trans (List.filter_sublist _))
termination_by l => l.length
decreasing_by
  simp only [List.length_cons]
  exact Nat.lt_succ_of_le (List.length_filter_le _ _)

theorem mem_keepFirstOccurrences {α : Type} [DecidableEq α] :
    ∀ (l : List α) (x : α), x ∈ keepFirstOccurrences l ↔ x ∈ l
  | [], x => by simp [keepFirstOccurrences_nil]
  | u :: rest, x => by
    rw [keepFirstOccurrences_cons]
    constructor
    · intro h
      rcases List.mem_cons.1 h with h | h
      · exact h ▸ List.mem_cons_self _ _
      · exact List.mem_cons_of_mem _
          (List.mem_filter.1 ((mem_keepFirstOccurrences _ x).1 h)).1
    · intro h
      rcases List.mem_cons.1 h with h | h
      · exact h ▸ List.mem_cons_self _ _
      · by_cases hx : x = u
        · exact hx ▸ List.mem_cons_self _ _
        · exact List.mem_cons_of_mem _
            ((mem_keepFirstOccurrences _ x).2 (List.mem_filter.2 ⟨h, by simp [hx]⟩))
termination_by l => l.length
decreasing_by
  all_goals simp only [List.length_cons]
  all_goals exact Nat.lt_succ_of_le (List.length_filter_le _ _)

theorem keepFirstOccurrences_nodup {α : Type} [DecidableEq α] :
    ∀ l : List α, (keepFirstOccurrences l).Nodup
  | [] => by simp [keepFirstOccurrences_nil]
  | u :: rest => by
    rw [keepFirstOccurrences_cons]
    refine List.Nodup.cons ?_ (keepFirstOccurrences_nodup _)
    intro hu
    have h := (List.mem_filter.1 ((mem_keepFirstOccurrences _ u).1 hu)).2
    simp at h
termination_by l => l.length
decreasing_by
  all_goals simp only [List.length_cons]
  all_goals exact Nat.lt_succ_of_le (List.length_filter_le _ _)

theorem dedupeAux_eq (l : List Str) :
    ∀ seen : List Str,
      dedupeAux seen l = keepFirstOccurrences (l.filter fun v => decide (v ∉ seen)) := by
  induction l with
  | nil => intro seen; simp [dedupeAux, keepFirstOccurrences_nil]
  | cons u rest ih =>
    intro seen
    by_cases hu : u ∈ seen
    · rw [show dedupeAux seen (u :: rest) = dedupeAux seen rest from by
        simp [dedupeAux, hu]]
      rw [ih seen]
      congr 1
      simp [List.filter_cons, hu]
    · rw [show dedupeAux seen (u :: rest) = u :: dedupeAux (u :: seen) rest from by
        simp [dedupeAux, hu]]
      rw [ih (u :: seen)]
      rw [show (u :: rest).filter (fun v => decide (v ∉ seen))
            = u :: rest.filter (fun v => decide (v ∉ seen)) from by
        simp [List.filter_cons, hu]]
      rw [keepFirstOccurrences_cons]
      congr 1
      rw [List.filter_filter]
      refine congrArg keepFirstOccurrences (List.filter_congr fun v _ => ?_)
      by_cases h1 : v = u <;> by_cases h2 : v ∈ seen <;>
        simp [h1, h2, List.mem_cons]

theorem dedupe_eq_keepFirst (l : List Str) : dedupe l = keepFirstOccurrences l := by
  rw [dedupe, dedupeAux_eq]
  congr 1
  simp

/-! Media selection -/

theorem head_filter_eq_find (p : Str → Bool) :
    ∀ l : List Str, (l.filter p).head? = l.find? p := by
  intro l
  induction l with
  | nil => rfl
  | cons x t ih =>
    by_cases hx : p x = true
    · simp [List.filter_cons, hx, List.find?_cons_of_pos _ hx]
    · have hx2 : p x = false := by simpa using hx
      rw [List.find?_cons_of_neg _ hx]
      simp [List.filter_cons, hx2, ih]

/-- C4.  For every list of URLs, the Media Selector returns the first URL
satisfying the HLS test (lowercase ends with or contains `.m3u8`) if one
exists, else the first element, else nothing; and on
`["http://x/a.mp4", "http://x/b.m3u8"]` it returns `"http://x/b.m3u8"`. -/
theorem claim_C4 :
    (∀ urls : List Str, choose_best_media urls = (urls.find? hlsLike).or urls.head?) ∧
      choose_best_media ["http://x/a.mp4".toList, "http://x/b.m3u8".toList] =
        some ("http://x/b.m3u8".toList) := by
  constructor
  · intro urls
    rw [← head_filter_eq_find]
    cases hf : urls.filter hlsLike with
    | nil => cases urls <;> simp [choose_best_media, hf, Option.or]
    | cons h tl => simp [choose_best_media, hf, Option.or]
  · decide

/-! Episode resolution -/

/-- C1.  A URL already matching the media-file-extension pattern is returned
as the single-element list `[url]`, with no fetch performed and nothing
logged. -/
theorem claim_C1 (fetch : Str → Except Str Str) (parse : Str → List Entry)
    (url : Str) (h : searchMediaExt url = true) :
    resolve_episode_to_media fetch parse url = ⟨.ok [url], [], []⟩ := by
  simp [resolve_episode_to_media, h]

theorem claim_C1_witness :
    searchMediaExt ("http://x/a.mp4".toList) = true ∧
      resolve_episode_to_media (fun _ => .error []) (fun _ => [])
        ("http://x/a.mp4".toList) = ⟨.ok ["http://x/a.mp4".toList], [], []⟩ :=
  ⟨by decide, claim_C1 _ _ _ (by decide)⟩

theorem finalize_eq_spec (l : List Str) : finalize l = finalizeSpec l := by
  unfold finalize finalizeSpec playableFilter
  rw [dedupe_eq_keepFirst]

/-- C2.  When resolution proceeds past the early media-pattern return and the
XML view fetch succeeds, the resolver returns the accumulated candidate list
first de-duplicated preserving first-occurrence order, then filtered to URLs
matching the media pattern or containing `.m3u8` (case-insensitive), falling
back to the full de-duplicated list when the filter leaves nothing; the
de-duplication keeps exactly the elements of the accumulated list, without
duplicates, as a subsequence. -/
theorem claim_C2 (fetch : Str → Except Str Str) (parse : Str → List Entry)
    (url xml_text : Str) (h1 : searchMediaExt url = false)
    (h2 : fetch (ensure_xml_view url) = .ok xml_text) :
    (resolve_episode_to_media fetch parse url).result =
        .ok (finalizeSpec (accMedia fetch parse xml_text)) ∧
      ∀ l : List Str, (keepFirstOccurrences l).Sublist l ∧
        (keepFirstOccurrences l).Nodup ∧
        ∀ x, x ∈ keepFirstOccurrences l ↔ x ∈ l := by
  constructor
  · unfold resolve_episode_to_media
    simp only [h1, Bool.false_eq_true, if_false, h2]
    by_cases hm : ((parse xml_text).flatMap extract_enclosure_urls).isEmpty = true
    · simp [hm, accMedia, finalize_eq_spec]
    · simp [hm, accMedia, finalize_eq_spec]
  · intro l
    exact ⟨keepFirstOccurrences_sublist l, keepFirstOccurrences_nodup l,
      mem_keepFirstOccurrences l⟩

theorem claim_C2_witness :
    searchMediaExt ("u".toList) = false ∧
      (resolve_episode_to_media (fun _ => (.ok [] : Except Str Str)) (fun _ => [])
          ("u".toList)).result =
        .ok (finalizeSpec (accMedia (fun _ => (.ok [] : Except Str Str)) (fun _ => []) [])) :=
  ⟨by decide, (claim_C2 _ _ ("u".toList) [] (by decide) rfl).1⟩

/-! Enclosure extraction -/

theorem out1_eq (e : Entry) :
    (match e.enclosures with
      | some encs =>
        if encs.isEmpty then []
        else
          encs.filterMap fun enc =>
            match enc.href with
            | some h => if h.isEmpty then none else some h
            | none => none
      | none => []) = specTier1 e := by
  rcases e with ⟨t, encs, ls, lnk⟩
  cases encs with
  | none => rfl
  | some es => cases es with
    | nil => rfl
    | cons a as => rfl

theorem out2_eq (e : Entry) :
    (match e.links with
      | some ls =>
        ls.filterMap fun l =>
          match l.href with
          | some h =>
            if h.isEmpty then none
            else if l.rel = some ("enclosure".toList) ∨ searchMediaExt h = true then some h
            else none
          | none => none
      | none => []) = specTier2 e := by
  rcases e with ⟨t, encs, ls, lnk⟩
  cases ls with
  | none => rfl
  | some l2 => rfl

theorem fallback_eq (A B C : List Str) :
    (if (A ++ (if A.isEmpty then B else [])).isEmpty then C
     else A ++ (if A.isEmpty then B else [])) =
      (if A ≠ [] then A else if B ≠ [] then B else C) := by
  by_cases hA : A = []
  · subst hA
    by_cases hB : B = [] <;> simp [hB]
  · have hA2 : A.isEmpty = false := by
      cases A with
      | nil => exact absurd rfl hA
      | cons a as => rfl
    simp [hA, hA2]

theorem extract_eq_spec (e : Entry) : extract_enclosure_urls e = specExtract e := by
  simp only [extract_enclosure_urls, specExtract]
  rw [out1_eq e, out2_eq e, dedupe_eq_keepFirst]
  exact congrArg keepFirstOccurrences (fallback_eq (specTier1 e) (specTier2 e) (specTier3 e))

/-- C3.  The Enclosure Extractor agrees with the spec's strict three-tier
fallback (declared enclosures, then enclosure-tagged or media-looking links,
then the canonical page link), de-duplicated preserving first-occurrence
order; an entry with no enclosures, no links and no canonical link yields
the empty list. -/
theorem claim_C3 :
    (∀ e : Entry, extract_enclosure_urls e = specExtract e) ∧
      ∀ t : Option Str, extract_enclosure_urls ⟨t, none, none, none⟩ = [] := by
  refine ⟨extract_eq_spec, fun t => rfl⟩

/-! Substring and query-string lemmas -/

theorem containsSub_append_right (pat t : Str) (h : containsSub pat t = true) :
    ∀ s : Str, containsSub pat (s ++ t) = true := by
  intro s
  induction s with
  | nil => simpa using h
  | cons c s ih => simp [containsSub, ih]

theorem takeWhile_all_append {α : Type} (p : α → Bool) (a b : List α)
    (h : ∀ c ∈ a, p c = true) : (a ++ b).takeWhile p = a ++ b.takeWhile p := by
  induction a with
  | nil => simp
  | cons x a ih =>
    have hx := h x (List.mem_cons_self x a)
    have ih2 := ih fun c hc => h c (List.mem_cons_of_mem _ hc)
    simp [List.takeWhile_cons, hx, ih2]

theorem takeWhile_eq_self_of_all {α : Type} (p : α → Bool) (a : List α)
    (h : ∀ c ∈ a, p c = true) : a.takeWhile p = a := by
  have := takeWhile_all_append p a [] h
  simpa using this

theorem afterChar_append (c : Char) (a b : Str) :
    afterChar c (a ++ b) =
      match afterChar c a with
      | some r => some (r ++ b)
      | none => afterChar c b := by
  induction a with
  | nil => rfl
  | cons x a ih =>
    by_cases hx : x = c
    · simp [afterChar, hx]
    · simp [afterChar, hx, ih]

theorem afterChar_eq_none (c : Char) (l : Str) (h : c ∉ l) : afterChar c l = none := by
  induction l with
  | nil => rfl
  | cons x t ih =>
    have hx : ¬(x = c) := fun he => h (he ▸ List.mem_cons_self x t)
    simp [afterChar, hx, ih fun hc => h (List.mem_cons_of_mem _ hc)]

theorem splitAmp_ne_nil : ∀ l : Str, splitAmp l ≠ []
  | [] => by simp [splitAmp]
  | c :: t => by
    by_cases hc : c = '&'
    · simp [splitAmp, hc]
    · simp only [splitAmp, hc, if_false]
      cases h : splitAmp t <;> simp

theorem splitAmp_append (a b : Str) : splitAmp (a ++ '&' :: b) = splitAmp a ++ splitAmp b := by
  induction a with
  | nil => simp [splitAmp]
  | cons c a ih =>
    by_cases hc : c = '&'
    · subst hc
      simp [splitAmp, ih]
    · have hne := splitAmp_ne_nil a
      cases h : splitAmp a with
      | nil => exact absurd h hne
      | cons h0 r => simp [splitAmp, hc, ih, h]

theorem hasXml_append_amp (q b : Str) (h : hasXmlParam b = true) :
    hasXmlParam (q ++ '&' :: b) = true := by
  unfold hasXmlParam at *
  rw [splitAmp_append, List.any_append, h]
  simp

theorem nrm_append (u s : Str) (hs1 : s.dropWhile ctlOrSpace = s)
    (hs2 : s.filter (fun c => !(tabCrLf c)) = s) :
    nrmUrl (u ++ s) = nrmUrl u ++ s := by
  unfold nrmUrl
  rw [List.dropWhile_append]
  split_ifs with he
  · have h0 : u.dropWhile ctlOrSpace = [] := List.isEmpty_iff.mp he
    rw [hs1, hs2, h0]
    simp
  · rw [List.filter_append, hs2]

theorem ensure_eq_self (v : Str) (h : hasXmlParam (pyQuery v) = true) :
    ensure_xml_view v = v := by
  simp [ensure_xml_view, h]

theorem ensure_eq_append (v : Str) (h : hasXmlParam (pyQuery v) = false) :
    ensure_xml_view v =
      v ++ ((if (pyQuery v).isEmpty then '?' else '&') :: "xml=1".toList) := by
  simp [ensure_xml_view, h]

/-! Claim C5: the two xml-view preparations -/

/-- C5 counterexample.  For `"http://h/p?xxml=2"` the parsed query string has
no `xml` parameter and `ensure_xml_view` appends `&xml=1`, but the inner
preparation of the Episode Resolver returns the URL unchanged because the
plain substring `"xml="` occurs inside `"xxml=2"`. -/
theorem claim_C5_cex :
    hasXmlParam (pyQuery ("http://h/p?xxml=2".toList)) = false ∧
      ensure_xml_view ("http://h/p?xxml=2".toList) = ("http://h/p?xxml=2&xml=1".toList) ∧
      innerPrep ("http://h/p?xxml=2".toList) = ("http://h/p?xxml=2".toList) :=
  ⟨by decide, by decide, by decide⟩

/-- C5 (amended).  `ensure_xml_view` appends `xml=1` exactly when the parsed
query string lacks an `xml` parameter, using `&` when the parsed query is
non-empty and `?` otherwise; the inner secondary-feed preparation instead
tests for the plain substring `"xml="` and chooses its separator by the
presence of `?` anywhere in the URL, and its result always contains
`"xml="`. -/
theorem claim_C5_amended (u : Str) :
    (hasXmlParam (pyQuery u) = false →
      ensure_xml_view u = u ++ ((if (pyQuery u).isEmpty then '?' else '&') :: "xml=1".toList)) ∧
      (hasXmlParam (pyQuery u) = true → ensure_xml_view u = u) ∧
      (containsSub ("xml=".toList) u = false →
        innerPrep u = u ++ (if '?' ∈ u then "&xml=1".toList else "?xml=1".toList) ∧
          containsSub ("xml=".toList) (innerPrep u) = true) ∧
      (containsSub ("xml=".toList) u = true → innerPrep u = u) := by
  refine ⟨fun h => ensure_eq_append u h, fun h => ensure_eq_self u h,
    fun h => ?_, fun h => by unfold innerPrep; rw [if_pos h]⟩
  have h1 : innerPrep u = u ++ (if '?' ∈ u then "&xml=1".toList else "?xml=1".toList) := by
    unfold innerPrep
    rw [if_neg (by rw [h]; simp)]
  refine ⟨h1, ?_⟩
  rw [h1]
  by_cases hq : '?' ∈ u
  · simp only [if_pos hq]
    exact containsSub_append_right _ _ (by decide) u
  · simp only [if_neg hq]
    exact containsSub_append_right _ _ (by decide) u

theorem claim_C5_amended_witness :
    ensure_xml_view ("a".toList) = ("a?xml=1".toList) ∧
      ensure_xml_view ("b?xml=1".toList) = ("b?xml=1".toList) ∧
      innerPrep ("a".toList) = ("a?xml=1".toList) ∧
      containsSub ("xml=".toList) (innerPrep ("a".toList)) = true ∧
      innerPrep ("c?xml=1".toList) = ("c?xml=1".toList) :=
  ⟨((claim_C5_amended ("a".toList)).1 (by decide)).trans (by decide),
    (claim_C5_amended ("b?xml=1".toList)).2.1 (by decide),
    (((claim_C5_amended ("a".toList)).2.2.1 (by decide)).1).trans (by decide),
    ((claim_C5_amended ("a".toList)).2.2.1 (by decide)).2,
    (claim_C5_amended ("c?xml=1".toList)).2.2.2 (by decide)⟩

/-! Claim C10: idempotence of the xml view -/

/-- C10 counterexample.  `ensure_xml_view` is not idempotent: for `"#"` the
first call appends `?xml=1` into the fragment part, so the second call
appends again. -/
theorem claim_C10_cex :
    ensure_xml_view (ensure_xml_view ("#".toList)) ≠ ensure_xml_view ("#".toList) := by
  decide

/-- C10 (amended).  `ensure_xml_view` is idempotent on every URL whose
normalised form contains no `#` and whose parsed query is non-empty whenever
a `?` is present (the appended `xml=1` then lands in the parsed query, where
the second call finds it). -/
theorem claim_C10_amended (u : Str) (hHash : '#' ∉ nrmUrl u)
    (hQ : '?' ∈ nrmUrl u → pyQuery u ≠ []) :
    ensure_xml_view (ensure_xml_view u) = ensure_xml_view u := by
  have hall : ∀ c ∈ nrmUrl u, (fun c : Char => decide (c ≠ '#')) c = true := fun c hc => by
    simp only [decide_eq_true_eq]
    intro he
    exact hHash (he ▸ hc)
  have hpre : (nrmUrl u).takeWhile (fun c => decide (c ≠ '#')) = nrmUrl u :=
    takeWhile_eq_self_of_all _ _ hall
  by_cases hx : hasXmlParam (pyQuery u) = true
  · have h1 : ensure_xml_view u = u := ensure_eq_self u hx
    rw [h1, h1]
  · have hx0 : hasXmlParam (pyQuery u) = false := by simpa using hx
    cases hA : afterChar '?' (nrmUrl u) with
    | none =>
      have hqU : pyQuery u = [] := by
        unfold pyQuery
        rw [hpre, hA]
      have h1 : ensure_xml_view u = u ++ '?' :: "xml=1".toList :=
        (ensure_eq_append u hx0).trans (by rw [hqU]; rfl)
      rw [h1]
      have hnrm : nrmUrl (u ++ '?' :: "xml=1".toList) = nrmUrl u ++ '?' :: "xml=1".toList :=
        nrm_append u _ (by decide) (by decide)
      have hq2 : pyQuery (u ++ '?' :: "xml=1".toList) = "xml=1".toList := by
        unfold pyQuery
        rw [hnrm, takeWhile_all_append _ _ _ hall, afterChar_append, hA]
        rfl
      have hfin : hasXmlParam (pyQuery (u ++ '?' :: "xml=1".toList)) = true := by
        rw [hq2]
        decide
      exact ensure_eq_self _ hfin
    | some q =>
      have hqmem : '?' ∈ nrmUrl u := by
        by_contra hc
        rw [afterChar_eq_none '?' _ hc] at hA
        cases hA
      have hqU : pyQuery u = q := by
        unfold pyQuery
        rw [hpre, hA]
      have hqne : q ≠ [] := hqU ▸ hQ hqmem
      have hqeF : q.isEmpty = false := by
        cases q with
        | nil => exact absurd rfl hqne
        | cons a as => rfl
      have h1 : ensure_xml_view u = u ++ '&' :: "xml=1".toList :=
        (ensure_eq_append u hx0).trans (by rw [hqU, hqeF]; rfl)
      rw [h1]
      have hnrm : nrmUrl (u ++ '&' :: "xml=1".toList) = nrmUrl u ++ '&' :: "xml=1".toList :=
        nrm_append u _ (by decide) (by decide)
      have hq2 : pyQuery (u ++ '&' :: "xml=1".toList) = q ++ '&' :: "xml=1".toList := by
        unfold pyQuery
        rw [hnrm, takeWhile_all_append _ _ _ hall, afterChar_append, hA]
        rfl
      have hfin : hasXmlParam (pyQuery (u ++ '&' :: "xml=1".toList)) = true := by
        rw [hq2]
        exact hasXml_append_amp q _ (by decide)
      exact ensure_eq_self _ hfin

theorem claim_C10_amended_witness :
    ensure_xml_view (ensure_xml_view ("http://a".toList)) = ensure_xml_view ("http://a".toList) :=
  claim_C10_amended ("http://a".toList) (by decide) (by decide)

/-! Claim C6: the playlist writer -/

theorem dedupItemsByUrl_nil : dedupItemsByUrl [] = [] := by
  simp [dedupItemsByUrl]

theorem dedupItemsByUrl_cons (it : Item) (rest : List Item) :
    dedupItemsByUrl (it :: rest) =
      it :: dedupItemsByUrl (rest.filter fun jt => decide (jt.2.2 ≠ it.2.2)) := by
  rw [dedupItemsByUrl]

theorem writeGo_eq : ∀ (items : List Item) (seen : List Str),
    writeGo seen items =
      (dedupItemsByUrl (items.filter fun it => decide (it.2.2 ∉ seen))).flatMap
        fun it => [infoLine it.1 it.2.1, it.2.2] := by
  intro items
  induction items with
  | nil => intro seen; simp [writeGo, dedupItemsByUrl_nil]
  | cons it rest ih =>
    obtain ⟨g, t, u⟩ := it
    intro seen
    by_cases hu : u ∈ seen
    · rw [show writeGo seen ((g, t, u) :: rest) = writeGo seen rest from by
        simp [writeGo, hu]]
      rw [ih seen]
      have hf : (((g, t, u) :: rest).filter fun it => decide (it.2.2 ∉ seen))
          = rest.filter fun it => decide (it.2.2 ∉ seen) := by
        simp [List.filter_cons, hu]
      rw [hf]
    · rw [show writeGo seen ((g, t, u) :: rest)
          = infoLine g t :: u :: writeGo (u :: seen) rest from by simp [writeGo, hu]]
      rw [ih (u :: seen)]
      have hf : (((g, t, u) :: rest).filter fun it => decide (it.2.2 ∉ seen))
          = (g, t, u) :: rest.filter fun it => decide (it.2.2 ∉ seen) := by
        simp [List.filter_cons, hu]
      rw [hf, dedupItemsByUrl_cons]
      have hff : ((rest.filter fun it => decide (it.2.2 ∉ seen)).filter
            fun jt => decide (jt.2.2 ≠ (g, t, u).2.2))
          = rest.filter fun it => decide (it.2.2 ∉ u :: seen) := by
        rw [List.filter_filter]
        refine List.filter_congr fun v _ => ?_
        by_cases h1 : v.2.2 = u <;> by_cases h2 : v.2.2 ∈ seen <;>
          simp [h1, h2, List.mem_cons]
      rw [hff]
      rfl

theorem map_third_filter (u : Str) (l : List Item) :
    (l.filter fun jt => decide (jt.2.2 ≠ u)).map (fun it => it.2.2) =
      (l.map fun it => it.2.2).filter fun v => decide (v ≠ u) := by
  induction l with
  | nil => rfl
  | cons it rest ih =>
    by_cases h : it.2.2 = u <;>
      simp only [decide_not] at ih <;>
      simp [List.filter_cons, h, ih]

theorem dedupItems_map_third : ∀ items : List Item,
    (dedupItemsByUrl items).map (fun it => it.2.2) =
      keepFirstOccurrences (items.map fun it => it.2.2)
  | [] => by simp [dedupItemsByUrl_nil, keepFirstOccurrences_nil]
  | it :: rest => by
    rw [dedupItemsByUrl_cons, List.map_cons, List.map_cons, keepFirstOccurrences_cons,
      dedupItems_map_third _, map_third_filter]
termination_by l => l.length
decreasing_by
  simp only [List.length_cons]
  exact Nat.lt_succ_of_le (List.length_filter_le _ _)

/-- C6.  The written playlist starts with the `#EXTM3U` header line followed
by exactly two lines per kept item (info line with the quoted group and the
title, then the URL), where the kept items are the input items skipping any
whose URL already appeared earlier; the written URLs are exactly the
first-occurrence de-duplication of the input URLs, and no URL is written
twice. -/
theorem claim_C6 (items : List Item) :
    write_m3u items =
        "#EXTM3U".toList ::
          (dedupItemsByUrl items).flatMap (fun it => [infoLine it.1 it.2.1, it.2.2]) ∧
      (dedupItemsByUrl items).map (fun it => it.2.2) =
        keepFirstOccurrences (items.map fun it => it.2.2) ∧
      ((dedupItemsByUrl items).map fun it => it.2.2).Nodup := by
  refine ⟨?_, dedupItems_map_third items, ?_⟩
  · rw [write_m3u, writeGo_eq]
    have hf : (items.filter fun it => decide (it.2.2 ∉ ([] : List Str))) = items := by
      simp
    rw [hf]
  · rw [dedupItems_map_third]
    exact keepFirstOccurrences_nodup _

/-! Claims C7, C8, C9: the group collector -/

theorem sleep_not_mem_map_log (l : List Str) (q : ℚ) : Event.sleep q ∉ l.map Event.log := by
  intro h
  rcases List.mem_map.1 h with ⟨x, _, hx⟩
  cases hx

theorem no_sleep_processCandidate (fetch : Str → Except Str Str) (parse : Str → List Entry)
    (g t u : Str) (q : ℚ) : Event.sleep q ∉ (processCandidate fetch parse g t u).2 := by
  by_cases h1 : episodeUrlSearch u = true
  · cases hr : (resolve_episode_to_media fetch parse u).result with
    | ok medias => simp [processCandidate, h1, hr]
    | error ex => simp [processCandidate, h1, hr]
  · by_cases h2 : searchMediaExt u = true
    · simp [processCandidate, h1, h2]
    · cases hr : (resolve_episode_to_media fetch parse u).result with
      | ok medias => simp [processCandidate, h1, h2, hr]
      | error ex => simp [processCandidate, h1, h2, hr]

theorem no_sleep_processCandidates (fetch : Str → Except Str Str) (parse : Str → List Entry)
    (g t : Str) : ∀ (us : List Str) (q : ℚ),
      Event.sleep q ∉ (processCandidates fetch parse g t us).2 := by
  intro us q
  induction us with
  | nil => simp [processCandidates]
  | cons u us ih =>
    simp only [processCandidates]
    intro h
    rcases List.mem_append.1 h with h | h
    · exact no_sleep_processCandidate fetch parse g t u q h
    · exact ih h

theorem countP_sleep_processCandidates (fetch : Str → Except Str Str)
    (parse : Str → List Entry) (g t : Str) (us : List Str) :
    ((processCandidates fetch parse g t us).2).countP isSleep = 0 := by
  rw [List.countP_eq_zero]
  intro a ha
  cases a with
  | log s => simp [isSleep]
  | sleep q => exact absurd ha (no_sleep_processCandidates fetch parse g t us q)

theorem countP_sleep_processEntry (fetch : Str → Except Str Str) (parse : Str → List Entry)
    (g : Str) (ps : ℚ) (e : Entry) :
    ((processEntry fetch parse g ps e).2).countP isSleep
      = if (extract_enclosure_urls e).isEmpty then 0 else 1 := by
  by_cases h : (extract_enclosure_urls e).isEmpty = true
  · simp [processEntry, h]
  · simp [processEntry, h, List.countP_append, countP_sleep_processCandidates,
      List.countP_cons, isSleep]

/-- C9.  The collector sleeps exactly once per entry whose extractor yields
candidates (every sleep carrying the polite delay `ps`), and an entry with
no candidates contributes no items and no events at all. -/
theorem claim_C9 (fetch : Str → Except Str Str) (parse : Str → List Entry)
    (g : Str) (ps : ℚ) (entries : List Entry) :
    ((collectEntries fetch parse g ps entries).2).countP isSleep
        = entries.countP (fun e => !(extract_enclosure_urls e).isEmpty) ∧
      (∀ q : ℚ, Event.sleep q ∈ (collectEntries fetch parse g ps entries).2 → q = ps) ∧
      ∀ e : Entry, (extract_enclosure_urls e).isEmpty = true →
        processEntry fetch parse g ps e = ([], []) := by
  refine ⟨?_, ?_, fun e he => by simp [processEntry, he]⟩
  · induction entries with
    | nil => rfl
    | cons e es ih =>
      simp only [collectEntries]
      rw [List.countP_append, countP_sleep_processEntry, ih, List.countP_cons]
      by_cases h : (extract_enclosure_urls e).isEmpty = true
      · simp [h]
      · simp only [h, Bool.not_eq_true] at *
        simp [h]
        omega
  · induction entries with
    | nil => intro q h; simp [collectEntries] at h
    | cons e es ih =>
      intro q h
      simp only [collectEntries] at h
      rcases List.mem_append.1 h with h | h
      · simp only [processEntry] at h
        by_cases he : (extract_enclosure_urls e).isEmpty = true
        · rw [if_pos he] at h
          simp at h
        · rw [if_neg he] at h
          rcases List.mem_append.1 h with h | h
          · exact absurd h (no_sleep_processCandidates fetch parse g _ _ q)
          · have := List.mem_singleton.1 h
            injection this
      · exact ih q h

theorem claim_C9_witness :
    ((collectEntries (fun _ => (Except.error [] : Except Str Str))
          (fun _ => ([] : List Entry)) [] (3 / 10)
          [⟨none, none, none, some ("http://h/a".toList)⟩]).2).countP isSleep
        = List.countP (fun e => !(extract_enclosure_urls e).isEmpty)
            [(⟨none, none, none, some ("http://h/a".toList)⟩ : Entry)] ∧
      (3 / 10 : ℚ) = 3 / 10 ∧
      processEntry (fun _ => (Except.error [] : Except Str Str))
          (fun _ => ([] : List Entry)) [] (3 / 10) ⟨none, none, none, none⟩ = ([], []) :=
  ⟨(claim_C9 _ _ _ _ _).1,
    (claim_C9 (fun _ => (Except.error [] : Except Str Str)) (fun _ => ([] : List Entry))
        [] (3 / 10) [⟨none, none, none, some ("http://h/a".toList)⟩]).2.1 (3 / 10)
        (List.mem_singleton.2 rfl),
    (claim_C9 _ _ _ _ ([] : List Entry)).2.2 ⟨none, none, none, none⟩ (by decide)⟩

/-- C7.  Processing decomposes entry by entry and candidate by candidate
(so one failing entry or candidate leaves the processing of the rest
unchanged), and a candidate whose resolution fails contributes no items:
the failure is absorbed inside the per-candidate step. -/
theorem claim_C7 (fetch : Str → Except Str Str) (parse : Str → List Entry)
    (g t : Str) (ps : ℚ) (e : Entry) (es : List Entry) (u : Str) (us : List Str) :
    collectEntries fetch parse g ps (e :: es) =
        ((processEntry fetch parse g ps e).1 ++ (collectEntries fetch parse g ps es).1,
          (processEntry fetch parse g ps e).2 ++ (collectEntries fetch parse g ps es).2) ∧
      processCandidates fetch parse g t (u :: us) =
        ((processCandidate fetch parse g t u).1 ++ (processCandidates fetch parse g t us).1,
          (processCandidate fetch parse g t u).2 ++ (processCandidates fetch parse g t us).2) ∧
      ∀ ex, (resolve_episode_to_media fetch parse u).result = .error ex →
        (processCandidate fetch parse g t u).1 = [] := by
  refine ⟨rfl, rfl, fun ex hex => ?_⟩
  by_cases h1 : episodeUrlSearch u = true
  · simp [processCandidate, h1, hex]
  · by_cases h2 : searchMediaExt u = true
    · exact absurd hex (by simp [resolve_episode_to_media, h2])
    · simp [processCandidate, h1, h2, hex]

theorem claim_C7_witness :
    (processCandidate (fun _ => (Except.error ("boom".toList) : Except Str Str))
        (fun _ => ([] : List Entry)) ("G".toList) ("T".toList) ("http://h/a".toList)).1 = [] :=
  (claim_C7 (fun _ => (Except.error ("boom".toList) : Except Str Str))
      (fun _ => ([] : List Entry)) ("G".toList) ("T".toList) (3 / 10)
      ⟨none, none, none, none⟩ [] ("http://h/a".toList) []).2.2 ("boom".toList) rfl

/-- C8 counterexample.  A non-episode candidate whose best-effort resolution
fails is skipped silently: with one entry whose only candidate is
`"http://h/a"` and a fetcher that always fails, the collector produces no
item and no log line at all (only the polite sleep), even though resolution
of the candidate raised. -/
theorem claim_C8_cex :
    collect_group (fun _ => [⟨none, none, none, some ("http://h/a".toList)⟩])
        (fun _ => (Except.error ("boom".toList) : Except Str Str)) (fun _ => [])
        ("G".toList) ("F".toList) (3 / 10)
      = ([], [Event.sleep (3 / 10)]) ∧
      (resolve_episode_to_media (fun _ => (Except.error ("boom".toList) : Except Str Str))
          (fun _ => []) ("http://h/a".toList)).result = .error ("boom".toList) :=
  ⟨rfl, rfl⟩

/-- C8 (amended).  An episode-pointer candidate whose resolution fails is
logged with a warning line containing the offending URL (as is each failing
inner xml fetch inside the resolver), but a failing non-episode candidate is
skipped with no log line. -/
theorem claim_C8_amended (fetch : Str → Except Str Str) (parse : Str → List Entry)
    (g t u ex : Str) (h1 : episodeUrlSearch u = true)
    (h2 : (resolve_episode_to_media fetch parse u).result = .error ex) :
    processCandidate fetch parse g t u =
        ([], (resolve_episode_to_media fetch parse u).logs.map Event.log
          ++ [Event.log (warnEpisode u ex)]) ∧
      u <:+: warnEpisode u ex ∧
      ∀ (v : Str) (us : List Str) (ex2 : Str), fetch v = .error ex2 →
        (innerLoop fetch parse (v :: us)).logs
            = warnInner v ex2 :: (innerLoop fetch parse us).logs ∧
          v <:+: warnInner v ex2 := by
  refine ⟨by simp [processCandidate, h1, h2], ?_, fun v us ex2 hf => ⟨?_, ?_⟩⟩
  · exact ⟨"[WARN] failed to resolve episode ".toList, ": ".toList ++ ex,
      by simp [warnEpisode, List.append_assoc]⟩
  · simp [innerLoop, hf]
  · exact ⟨"[WARN] inner xml fetch failed ".toList, ": ".toList ++ ex2,
      by simp [warnInner, List.append_assoc]⟩

theorem claim_C8_amended_witness :
    processCandidate (fun _ => (Except.error ("boom".toList) : Except Str Str)) (fun _ => [])
        ("G".toList) ("T".toList) ("http://h/a?episodes=1".toList) =
      ([], (resolve_episode_to_media
            (fun _ => (Except.error ("boom".toList) : Except Str Str)) (fun _ => [])
            ("http://h/a?episodes=1".toList)).logs.map Event.log
        ++ [Event.log (warnEpisode ("http://h/a?episodes=1".toList) ("boom".toList))]) ∧
      ("http://h/a?episodes=1".toList)
          <:+: warnEpisode ("http://h/a?episodes=1".toList) ("boom".toList) ∧
      ((innerLoop (fun _ => (Except.error ("boom".toList) : Except Str Str)) (fun _ => [])
            ["v".toList]).logs
          = warnInner ("v".toList) ("boom".toList)
            :: (innerLoop (fun _ => (Except.error ("boom".toList) : Except Str Str))
                (fun _ => []) []).logs ∧
        ("v".toList) <:+: warnInner ("v".toList) ("boom".toList)) :=
  ⟨(claim_C8_amended (fun _ => (Except.error ("boom".toList) : Except Str Str)) (fun _ => [])
        ("G".toList) ("T".toList) ("http://h/a?episodes=1".toList) ("boom".toList)
        (by decide) rfl).1,
    (claim_C8_amended (fun _ => (Except.error ("boom".toList) : Except Str Str)) (fun _ => [])
        ("G".toList) ("T".toList) ("http://h/a?episodes=1".toList) ("boom".toList)
        (by decide) rfl).2.1,
    (claim_C8_amended (fun _ => (Except.error ("boom".toList) : Except Str Str)) (fun _ => [])
        ("G".toList) ("T".toList) ("http://h/a?episodes=1".toList) ("boom".toList)
        (by decide) rfl).2.2 ("v".toList) [] ("boom".toList) rfl⟩

end HkDrama
